import Mathlib

/-!
Shallow embedding of the AMReX tracer-particle interpolation kernels
(`Src/Particle/AMReX_TracerParticle_mod_K.H`) and of `amrex::Math::powi`
(`AMReX_Math.H`), with theorems settling the specification claims.

Modelling conventions:
* `amrex::Real` and `amrex::ParticleReal` are modelled as `ℚ` (exact
  arithmetic).
* An `Array4<Real const>` is a total function `ℤ → ℤ → ℤ → ℕ → ℚ`
  (cell index i, j, k and component); the height field is accessed with
  an implicit component 0 and is modelled as `ℤ → ℤ → ℤ → ℚ`.
* A particle exposes `pos : ℕ → ℚ` and `idata : ℕ → ℤ`.
* `AMREX_SPACEDIM` is a compile-time constant, so each function of the
  source is embedded once per dimension (`_1d`, `_2d`, `_3d`), following
  the `AMREX_D_TERM` / `#if` expansion of the source text.
* `amrex::Math::floor` followed by `static_cast<int>` is `Int.floor`.
* `amrex::Abort` (called in the 1D terrain path) terminates the program;
  the terrain kernels therefore return `Except String (List ℚ)`, with
  `Except.error` carrying the abort message.
-/

namespace amrex

/-- An `Array4<Real const>`: (i, j, k, component) ↦ value. -/
def Array4 : Type := ℤ → ℤ → ℤ → ℕ → ℚ

/-- The height field `height_arr`, read as `height_arr(i,j,k)` (component 0). -/
def HeightArr : Type := ℤ → ℤ → ℤ → ℚ

/-- The particle interface used by the kernels: `pos(axis)` and `idata(0)`. -/
structure Particle where
  pos : ℕ → ℚ
  idata : ℕ → ℤ

/-- `(Real(p.pos(a)) - plo[a]) * dxi[a] - static_cast<Real>(!is_nodal[d][a]) * Real(0.5)`:
the fractional coordinate `lx` / `ly` / `lz` of the source. -/
def lcoord (pos plo dxi : ℚ) (nodal : Bool) : ℚ :=
  (pos - plo) * dxi - (if nodal then 0 else 1) * (1 / 2)

/-- `static_cast<int>(amrex::Math::floor(l))`: floor toward negative infinity. -/
def ifloor (l : ℚ) : ℤ := ⌊l⌋

/-- The per-axis lower stencil corner `i0` / `j0` / `k0` of the orthogonal kernel. -/
def iidx (p : Particle) (plo dxi : ℕ → ℚ) (nodal : ℕ → Bool) (a : ℕ) : ℤ :=
  ifloor (lcoord (p.pos a) (plo a) (dxi a) (nodal a))

/-- The per-axis fractional remainder `xint = lx - i0` (likewise `yint`, `zint`). -/
def ifrac (p : Particle) (plo dxi : ℕ → ℚ) (nodal : ℕ → Bool) (a : ℕ) : ℚ :=
  lcoord (p.pos a) (plo a) (dxi a) (nodal a) - (iidx p plo dxi nodal a : ℚ)

/-- The two-point weight array `s[] = \x7b 1 - t, t \x7d` built from a fractional
remainder `t`; index 0 is the lower corner, index 1 the upper corner. -/
def wt (t : ℚ) : ℕ → ℚ := fun i => if i = 0 then 1 - t else t

/-- The unrolled 3D corner accumulation
`for kk; for jj; for ii: val += data(i0+ii, j0+jj, k0+kk, comp) * sx[ii]*sy[jj]*sz[kk]`,
in the accumulation order of the source (ii fastest). -/
def corner_sum_3d (f : Array4) (comp : ℕ) (i0 j0 k0 : ℤ) (sx sy sz : ℕ → ℚ) : ℚ :=
  f i0 j0 k0 comp * (sx 0 * sy 0 * sz 0)
  + f (i0 + 1) j0 k0 comp * (sx 1 * sy 0 * sz 0)
  + f i0 (j0 + 1) k0 comp * (sx 0 * sy 1 * sz 0)
  + f (i0 + 1) (j0 + 1) k0 comp * (sx 1 * sy 1 * sz 0)
  + f i0 j0 (k0 + 1) comp * (sx 0 * sy 0 * sz 1)
  + f (i0 + 1) j0 (k0 + 1) comp * (sx 1 * sy 0 * sz 1)
  + f i0 (j0 + 1) (k0 + 1) comp * (sx 0 * sy 1 * sz 1)
  + f (i0 + 1) (j0 + 1) (k0 + 1) comp * (sx 1 * sy 1 * sz 1)

/-- The unrolled 2D corner accumulation (third index fixed at 0 by `IntVect`). -/
def corner_sum_2d (f : Array4) (comp : ℕ) (i0 j0 : ℤ) (sx sy : ℕ → ℚ) : ℚ :=
  f i0 j0 0 comp * (sx 0 * sy 0)
  + f (i0 + 1) j0 0 comp * (sx 1 * sy 0)
  + f i0 (j0 + 1) 0 comp * (sx 0 * sy 1)
  + f (i0 + 1) (j0 + 1) 0 comp * (sx 1 * sy 1)

/-- The unrolled 1D corner accumulation. -/
def corner_sum_1d (f : Array4) (comp : ℕ) (i0 : ℤ) (sx : ℕ → ℚ) : ℚ :=
  f i0 0 0 comp * sx 0 + f (i0 + 1) 0 0 comp * sx 1

/-- One component of the body of `linear_interpolate_to_particle` at
`AMREX_SPACEDIM = 3`, for field array `f` with staggering `nodal`. -/
def interp_one_3d (p : Particle) (plo dxi : ℕ → ℚ) (nodal : ℕ → Bool)
    (f : Array4) (comp : ℕ) : ℚ :=
  corner_sum_3d f comp
    (iidx p plo dxi nodal 0) (iidx p plo dxi nodal 1) (iidx p plo dxi nodal 2)
    (wt (ifrac p plo dxi nodal 0)) (wt (ifrac p plo dxi nodal 1)) (wt (ifrac p plo dxi nodal 2))

/-- One component of the body of `linear_interpolate_to_particle` at
`AMREX_SPACEDIM = 2`. -/
def interp_one_2d (p : Particle) (plo dxi : ℕ → ℚ) (nodal : ℕ → Bool)
    (f : Array4) (comp : ℕ) : ℚ :=
  corner_sum_2d f comp
    (iidx p plo dxi nodal 0) (iidx p plo dxi nodal 1)
    (wt (ifrac p plo dxi nodal 0)) (wt (ifrac p plo dxi nodal 1))

/-- One component of the body of `linear_interpolate_to_particle` at
`AMREX_SPACEDIM = 1`. -/
def interp_one_1d (p : Particle) (plo dxi : ℕ → ℚ) (nodal : ℕ → Bool)
    (f : Array4) (comp : ℕ) : ℚ :=
  corner_sum_1d f comp (iidx p plo dxi nodal 0) (wt (ifrac p plo dxi nodal 0))

/-- The component indices visited by `for (int comp = start_comp; comp < ncomp; ++comp)`. -/
def comp_range (start_comp ncomp : ℕ) : List ℕ :=
  List.range' start_comp (ncomp - start_comp)

/-- `linear_interpolate_to_particle` at `AMREX_SPACEDIM = 3`: the flat output
buffer `val`, one entry per `ctr++`, arrays outer, components inner. -/
def linear_interpolate_to_particle_3d (p : Particle) (plo dxi : ℕ → ℚ)
    (data_arr : ℕ → Array4) (is_nodal : ℕ → ℕ → Bool)
    (start_comp ncomp num_arrays : ℕ) : List ℚ :=
  (List.range num_arrays).flatMap fun d =>
    (comp_range start_comp ncomp).map fun comp =>
      interp_one_3d p plo dxi (is_nodal d) (data_arr d) comp

/-- `linear_interpolate_to_particle` at `AMREX_SPACEDIM = 2`. -/
def linear_interpolate_to_particle_2d (p : Particle) (plo dxi : ℕ → ℚ)
    (data_arr : ℕ → Array4) (is_nodal : ℕ → ℕ → Bool)
    (start_comp ncomp num_arrays : ℕ) : List ℚ :=
  (List.range num_arrays).flatMap fun d =>
    (comp_range start_comp ncomp).map fun comp =>
      interp_one_2d p plo dxi (is_nodal d) (data_arr d) comp

/-- `linear_interpolate_to_particle` at `AMREX_SPACEDIM = 1`. -/
def linear_interpolate_to_particle_1d (p : Particle) (plo dxi : ℕ → ℚ)
    (data_arr : ℕ → Array4) (is_nodal : ℕ → ℕ → Bool)
    (start_comp ncomp num_arrays : ℕ) : List ℚ :=
  (List.range num_arrays).flatMap fun d =>
    (comp_range start_comp ncomp).map fun comp =>
      interp_one_1d p plo dxi (is_nodal d) (data_arr d) comp

/-- `cic_interpolate_cc` at `AMREX_SPACEDIM = 3`: one array, zero staggering,
`start_comp = 0`, `ncomp_per_array = M`, `num_arrays = 1`. -/
def cic_interpolate_cc_3d (p : Particle) (plo dxi : ℕ → ℚ)
    (data_arr : Array4) (M : ℕ) : List ℚ :=
  linear_interpolate_to_particle_3d p plo dxi (fun _ => data_arr)
    (fun _ _ => false) 0 M 1

/-- `cic_interpolate_cc` at `AMREX_SPACEDIM = 2`. -/
def cic_interpolate_cc_2d (p : Particle) (plo dxi : ℕ → ℚ)
    (data_arr : Array4) (M : ℕ) : List ℚ :=
  linear_interpolate_to_particle_2d p plo dxi (fun _ => data_arr)
    (fun _ _ => false) 0 M 1

/-- `cic_interpolate` forwards to `cic_interpolate_cc` (3D). -/
def cic_interpolate_3d (p : Particle) (plo dxi : ℕ → ℚ)
    (data_arr : Array4) (M : ℕ) : List ℚ :=
  cic_interpolate_cc_3d p plo dxi data_arr M

/-- `cic_interpolate` forwards to `cic_interpolate_cc` (2D). -/
def cic_interpolate_2d (p : Particle) (plo dxi : ℕ → ℚ)
    (data_arr : Array4) (M : ℕ) : List ℚ :=
  cic_interpolate_cc_2d p plo dxi data_arr M

/-- `cic_interpolate_nd` at `AMREX_SPACEDIM = 3`: one array, all-nodal staggering. -/
def cic_interpolate_nd_3d (p : Particle) (plo dxi : ℕ → ℚ)
    (data_arr : Array4) (M : ℕ) : List ℚ :=
  linear_interpolate_to_particle_3d p plo dxi (fun _ => data_arr)
    (fun _ _ => true) 0 M 1

/-- `cic_interpolate_nd` at `AMREX_SPACEDIM = 2`. -/
def cic_interpolate_nd_2d (p : Particle) (plo dxi : ℕ → ℚ)
    (data_arr : Array4) (M : ℕ) : List ℚ :=
  linear_interpolate_to_particle_2d p plo dxi (fun _ => data_arr)
    (fun _ _ => true) 0 M 1

/-- The `mac_interpolate` staggering: `is_nodal[d]` is 1 exactly on axis `d`. -/
def mac_nodal : ℕ → ℕ → Bool := fun d a => a == d

/-- `mac_interpolate` at `AMREX_SPACEDIM = 3`: `AMREX_SPACEDIM` arrays, each
nodal exactly in its own axis, one component each. -/
def mac_interpolate_3d (p : Particle) (plo dxi : ℕ → ℚ)
    (data_arr : ℕ → Array4) : List ℚ :=
  linear_interpolate_to_particle_3d p plo dxi data_arr mac_nodal 0 1 3

/-- `mac_interpolate` at `AMREX_SPACEDIM = 2`. -/
def mac_interpolate_2d (p : Particle) (plo dxi : ℕ → ℚ)
    (data_arr : ℕ → Array4) : List ℚ :=
  linear_interpolate_to_particle_2d p plo dxi data_arr mac_nodal 0 1 2

/-- The index offset `(!is_nodal[d][a])` used when averaging the height field:
1 on a cell-centered axis, 0 on a nodal axis. -/
def stag_off (nodal : Bool) : ℤ := if nodal then 0 else 1

/-- The 2D height average `0.25 * (H(i,j,k) + H(i+ox,j,k) + H(i,j+oy,k) + H(i+ox,j+oy,k))`
with `k = 0`, used for `hlo_xlo`, `hlo_xhi` and the `ht[]` entries of the 2D
terrain kernel. -/
def havg_2d (H : HeightArr) (ox oy : ℤ) (i j : ℤ) : ℚ :=
  (1 / 4) * (H i j 0 + H (i + ox) j 0 + H i (j + oy) 0 + H (i + ox) (j + oy) 0)

/-- The 2D reconstructed terrain height under the particle,
`height_at_px = sx[0] * hlo_xlo + sx[1] * hlo_xhi`, evaluated at the seed row
`j = p.idata(0)` and `k = 0`. -/
def height_at_px_2d (p : Particle) (plo dxi : ℕ → ℚ) (nodal : ℕ → Bool)
    (H : HeightArr) : ℚ :=
  wt (ifrac p plo dxi nodal 0) 0
      * havg_2d H (stag_off (nodal 0)) (stag_off (nodal 1))
          (iidx p plo dxi nodal 0) (p.idata 0)
    + wt (ifrac p plo dxi nodal 0) 1
      * havg_2d H (stag_off (nodal 0)) (stag_off (nodal 1))
          (iidx p plo dxi nodal 0 + 1) (p.idata 0)

/-- The resolved lower vertical index of the 2D terrain kernel:
`j0 = (p.pos(1) >= height_at_px) ? j : j - 1` with seed `j = p.idata(0)`. -/
def j0_2d (p : Particle) (plo dxi : ℕ → ℚ) (nodal : ℕ → Bool)
    (H : HeightArr) : ℤ :=
  if p.pos 1 ≥ height_at_px_2d p plo dxi nodal H then p.idata 0 else p.idata 0 - 1

/-- The lower reconstructed height `ht[2*ii]` at horizontal corner `ii` of the
2D terrain kernel (vertical row `j0`). -/
def htlo_2d (p : Particle) (plo dxi : ℕ → ℚ) (nodal : ℕ → Bool)
    (H : HeightArr) (ii : ℤ) : ℚ :=
  havg_2d H (stag_off (nodal 0)) (stag_off (nodal 1))
    (iidx p plo dxi nodal 0 + ii) (j0_2d p plo dxi nodal H)

/-- The upper reconstructed height `ht[2*ii + 1]` at horizontal corner `ii` of
the 2D terrain kernel (vertical row `j0 + 1`). -/
def hthi_2d (p : Particle) (plo dxi : ℕ → ℚ) (nodal : ℕ → Bool)
    (H : HeightArr) (ii : ℤ) : ℚ :=
  havg_2d H (stag_off (nodal 0)) (stag_off (nodal 1))
    (iidx p plo dxi nodal 0 + ii) (j0_2d p plo dxi nodal H + 1)

/-- The fractional vertical weight `hint_ilo` (`ii = 0`) / `hint_ihi` (`ii = 1`)
of the 2D terrain kernel: `(p.pos(1) - ht[2*ii]) / (ht[2*ii+1] - ht[2*ii])`,
with no guard against a zero denominator. -/
def hint_2d (p : Particle) (plo dxi : ℕ → ℚ) (nodal : ℕ → Bool)
    (H : HeightArr) (ii : ℤ) : ℚ :=
  (p.pos 1 - htlo_2d p plo dxi nodal H ii)
    / (hthi_2d p plo dxi nodal H ii - htlo_2d p plo dxi nodal H ii)

/-- One component of the body of `linear_interpolate_to_particle_z` at
`AMREX_SPACEDIM = 2`: the accumulation
`for jj; for ii: val += data(i0+ii, j0+jj, 0, comp) * sx[ii] * sy[sy_ctr++]`
with `sy[] = \x7b 1-hint_ilo, 1-hint_ihi, hint_ilo, hint_ihi \x7d`. -/
def interp_one_z_2d (p : Particle) (plo dxi : ℕ → ℚ) (nodal : ℕ → Bool)
    (f : Array4) (H : HeightArr) (comp : ℕ) : ℚ :=
  f (iidx p plo dxi nodal 0) (j0_2d p plo dxi nodal H) 0 comp
      * wt (ifrac p plo dxi nodal 0) 0 * (1 - hint_2d p plo dxi nodal H 0)
  + f (iidx p plo dxi nodal 0 + 1) (j0_2d p plo dxi nodal H) 0 comp
      * wt (ifrac p plo dxi nodal 0) 1 * (1 - hint_2d p plo dxi nodal H 1)
  + f (iidx p plo dxi nodal 0) (j0_2d p plo dxi nodal H + 1) 0 comp
      * wt (ifrac p plo dxi nodal 0) 0 * hint_2d p plo dxi nodal H 0
  + f (iidx p plo dxi nodal 0 + 1) (j0_2d p plo dxi nodal H + 1) 0 comp
      * wt (ifrac p plo dxi nodal 0) 1 * hint_2d p plo dxi nodal H 1

/-- `linear_interpolate_to_particle_z` at `AMREX_SPACEDIM = 2` (no abort path). -/
def linear_interpolate_to_particle_z_2d (p : Particle) (plo dxi : ℕ → ℚ)
    (data_arr : ℕ → Array4) (H : HeightArr) (is_nodal : ℕ → ℕ → Bool)
    (start_comp ncomp num_arrays : ℕ) : Except String (List ℚ) :=
  .ok ((List.range num_arrays).flatMap fun d =>
    (comp_range start_comp ncomp).map fun comp =>
      interp_one_z_2d p plo dxi (is_nodal d) (data_arr d) H comp)

/-- The 3D height average used for the `hlo[]` entries of the 3D terrain
kernel: `0.125 *` the sum of the 8 samples around `(i, j, k)` with per-axis
offsets `ox, oy, oz = (!is_nodal[d][axis])`, in the term order of the source. -/
def hlo_avg_3d (H : HeightArr) (ox oy oz : ℤ) (i j k : ℤ) : ℚ :=
  (1 / 8) * (H i j k + H (i + ox) j k + H i (j + oy) k + H (i + ox) (j + oy) k
    + H i j (k + oz) + H (i + ox) j (k + oz) + H i (j + oy) (k + oz)
    + H (i + ox) (j + oy) (k + oz))

/-- The 3D height average used for the `ht[]` entries of the 3D terrain
kernel: same 8 samples as `hlo_avg_3d`, summed in the (different) term order
of the source. -/
def ht_avg_3d (H : HeightArr) (ox oy oz : ℤ) (i j k : ℤ) : ℚ :=
  (1 / 8) * (H i j k + H i j (k + oz) + H i (j + oy) k + H i (j + oy) (k + oz)
    + H (i + ox) j k + H (i + ox) j (k + oz) + H (i + ox) (j + oy) k
    + H (i + ox) (j + oy) (k + oz))

/-- The 3D reconstructed terrain height under the particle,
`height_at_pxy = Σ_(ii,jj) hlo[ilo] * sx[ii] * sy[jj]`, evaluated at the seed
level `k = p.idata(0)`, accumulated in the order of the source (`ii` outer). -/
def height_at_pxy_3d (p : Particle) (plo dxi : ℕ → ℚ) (nodal : ℕ → Bool)
    (H : HeightArr) : ℚ :=
  hlo_avg_3d H (stag_off (nodal 0)) (stag_off (nodal 1)) (stag_off (nodal 2))
      (iidx p plo dxi nodal 0) (iidx p plo dxi nodal 1) (p.idata 0)
    * wt (ifrac p plo dxi nodal 0) 0 * wt (ifrac p plo dxi nodal 1) 0
  + hlo_avg_3d H (stag_off (nodal 0)) (stag_off (nodal 1)) (stag_off (nodal 2))
      (iidx p plo dxi nodal 0) (iidx p plo dxi nodal 1 + 1) (p.idata 0)
    * wt (ifrac p plo dxi nodal 0) 0 * wt (ifrac p plo dxi nodal 1) 1
  + hlo_avg_3d H (stag_off (nodal 0)) (stag_off (nodal 1)) (stag_off (nodal 2))
      (iidx p plo dxi nodal 0 + 1) (iidx p plo dxi nodal 1) (p.idata 0)
    * wt (ifrac p plo dxi nodal 0) 1 * wt (ifrac p plo dxi nodal 1) 0
  + hlo_avg_3d H (stag_off (nodal 0)) (stag_off (nodal 1)) (stag_off (nodal 2))
      (iidx p plo dxi nodal 0 + 1) (iidx p plo dxi nodal 1 + 1) (p.idata 0)
    * wt (ifrac p plo dxi nodal 0) 1 * wt (ifrac p plo dxi nodal 1) 1

/-- The resolved lower vertical index of the 3D terrain kernel:
`k0 = (p.pos(2) >= height_at_pxy) ? k : k - 1` with seed `k = p.idata(0)`. -/
def k0_3d (p : Particle) (plo dxi : ℕ → ℚ) (nodal : ℕ → Bool)
    (H : HeightArr) : ℤ :=
  if p.pos 2 ≥ height_at_pxy_3d p plo dxi nodal H then p.idata 0 else p.idata 0 - 1

/-- The lower reconstructed height `ht[4*ii + 2*jj]` at horizontal corner
`(ii, jj)` of the 3D terrain kernel (vertical level `k0`). -/
def htlo_3d (p : Particle) (plo dxi : ℕ → ℚ) (nodal : ℕ → Bool)
    (H : HeightArr) (ii jj : ℤ) : ℚ :=
  ht_avg_3d H (stag_off (nodal 0)) (stag_off (nodal 1)) (stag_off (nodal 2))
    (iidx p plo dxi nodal 0 + ii) (iidx p plo dxi nodal 1 + jj)
    (k0_3d p plo dxi nodal H)

/-- The upper reconstructed height `ht[4*ii + 2*jj + 1]` at horizontal corner
`(ii, jj)` of the 3D terrain kernel (vertical level `k0 + 1`). -/
def hthi_3d (p : Particle) (plo dxi : ℕ → ℚ) (nodal : ℕ → Bool)
    (H : HeightArr) (ii jj : ℤ) : ℚ :=
  ht_avg_3d H (stag_off (nodal 0)) (stag_off (nodal 1)) (stag_off (nodal 2))
    (iidx p plo dxi nodal 0 + ii) (iidx p plo dxi nodal 1 + jj)
    (k0_3d p plo dxi nodal H + 1)

/-- The fractional vertical weight `hint_i..j..` of the 3D terrain kernel at
horizontal corner `(ii, jj)`:
`(p.pos(2) - ht[4*ii+2*jj]) / (ht[4*ii+2*jj+1] - ht[4*ii+2*jj])`,
with no guard against a zero denominator. -/
def hint_3d (p : Particle) (plo dxi : ℕ → ℚ) (nodal : ℕ → Bool)
    (H : HeightArr) (ii jj : ℤ) : ℚ :=
  (p.pos 2 - htlo_3d p plo dxi nodal H ii jj)
    / (hthi_3d p plo dxi nodal H ii jj - htlo_3d p plo dxi nodal H ii jj)

/-- One component of the body of `linear_interpolate_to_particle_z` at
`AMREX_SPACEDIM = 3`: the accumulation
`for kk; for jj; for ii: val += data(i0+ii, j0+jj, k0+kk, comp) * sx[ii]*sy[jj]*sz[sz_ctr++]`
where `sz[kk*4 + jj*2 + ii]` is `1 - hint(ii,jj)` for `kk = 0` and
`hint(ii,jj)` for `kk = 1`. -/
def interp_one_z_3d (p : Particle) (plo dxi : ℕ → ℚ) (nodal : ℕ → Bool)
    (f : Array4) (H : HeightArr) (comp : ℕ) : ℚ :=
  f (iidx p plo dxi nodal 0) (iidx p plo dxi nodal 1) (k0_3d p plo dxi nodal H) comp
      * wt (ifrac p plo dxi nodal 0) 0 * wt (ifrac p plo dxi nodal 1) 0
      * (1 - hint_3d p plo dxi nodal H 0 0)
  + f (iidx p plo dxi nodal 0 + 1) (iidx p plo dxi nodal 1) (k0_3d p plo dxi nodal H) comp
      * wt (ifrac p plo dxi nodal 0) 1 * wt (ifrac p plo dxi nodal 1) 0
      * (1 - hint_3d p plo dxi nodal H 1 0)
  + f (iidx p plo dxi nodal 0) (iidx p plo dxi nodal 1 + 1) (k0_3d p plo dxi nodal H) comp
      * wt (ifrac p plo dxi nodal 0) 0 * wt (ifrac p plo dxi nodal 1) 1
      * (1 - hint_3d p plo dxi nodal H 0 1)
  + f (iidx p plo dxi nodal 0 + 1) (iidx p plo dxi nodal 1 + 1) (k0_3d p plo dxi nodal H) comp
      * wt (ifrac p plo dxi nodal 0) 1 * wt (ifrac p plo dxi nodal 1) 1
      * (1 - hint_3d p plo dxi nodal H 1 1)
  + f (iidx p plo dxi nodal 0) (iidx p plo dxi nodal 1) (k0_3d p plo dxi nodal H + 1) comp
      * wt (ifrac p plo dxi nodal 0) 0 * wt (ifrac p plo dxi nodal 1) 0
      * hint_3d p plo dxi nodal H 0 0
  + f (iidx p plo dxi nodal 0 + 1) (iidx p plo dxi nodal 1) (k0_3d p plo dxi nodal H + 1) comp
      * wt (ifrac p plo dxi nodal 0) 1 * wt (ifrac p plo dxi nodal 1) 0
      * hint_3d p plo dxi nodal H 1 0
  + f (iidx p plo dxi nodal 0) (iidx p plo dxi nodal 1 + 1) (k0_3d p plo dxi nodal H + 1) comp
      * wt (ifrac p plo dxi nodal 0) 0 * wt (ifrac p plo dxi nodal 1) 1
      * hint_3d p plo dxi nodal H 0 1
  + f (iidx p plo dxi nodal 0 + 1) (iidx p plo dxi nodal 1 + 1) (k0_3d p plo dxi nodal H + 1) comp
      * wt (ifrac p plo dxi nodal 0) 1 * wt (ifrac p plo dxi nodal 1) 1
      * hint_3d p plo dxi nodal H 1 1

/-- `linear_interpolate_to_particle_z` at `AMREX_SPACEDIM = 3` (no abort path). -/
def linear_interpolate_to_particle_z_3d (p : Particle) (plo dxi : ℕ → ℚ)
    (data_arr : ℕ → Array4) (H : HeightArr) (is_nodal : ℕ → ℕ → Bool)
    (start_comp ncomp num_arrays : ℕ) : Except String (List ℚ) :=
  .ok ((List.range num_arrays).flatMap fun d =>
    (comp_range start_comp ncomp).map fun comp =>
      interp_one_z_3d p plo dxi (is_nodal d) (data_arr d) H comp)

/-- The abort message of the 1D terrain path. -/
def abort_1d_msg : String := " Terrain fitted grid interpolation is not supported in 1D\n"

/-- Modelled from the spec: `linear_interpolate_to_particle_z` at
`AMREX_SPACEDIM = 1` calls `amrex::Abort`, whose implementation is outside
this fragment; per the spec it reports an unrecoverable abort with a
descriptive message and does not return a value, modelled as `Except.error`. -/
def linear_interpolate_to_particle_z_1d (p : Particle) (plo dxi : ℕ → ℚ)
    (data_arr : ℕ → Array4) (H : HeightArr) (is_nodal : ℕ → ℕ → Bool)
    (start_comp ncomp num_arrays : ℕ) : Except String (List ℚ) :=
  let _ := (p, plo, dxi, data_arr, H, is_nodal, start_comp, ncomp, num_arrays)
  .error abort_1d_msg

/-- `cic_interpolate_cc_mapped_z` at `AMREX_SPACEDIM = 1`. -/
def cic_interpolate_cc_mapped_z_1d (p : Particle) (plo dxi : ℕ → ℚ)
    (data_arr : Array4) (H : HeightArr) (M : ℕ) : Except String (List ℚ) :=
  linear_interpolate_to_particle_z_1d p plo dxi (fun _ => data_arr) H
    (fun _ _ => false) 0 M 1

/-- `cic_interpolate_mapped_z` forwards to `cic_interpolate_cc_mapped_z` (1D). -/
def cic_interpolate_mapped_z_1d (p : Particle) (plo dxi : ℕ → ℚ)
    (data_arr : Array4) (H : HeightArr) (M : ℕ) : Except String (List ℚ) :=
  cic_interpolate_cc_mapped_z_1d p plo dxi data_arr H M

/-- `cic_interpolate_nd_mapped_z` at `AMREX_SPACEDIM = 1`. -/
def cic_interpolate_nd_mapped_z_1d (p : Particle) (plo dxi : ℕ → ℚ)
    (data_arr : Array4) (H : HeightArr) (M : ℕ) : Except String (List ℚ) :=
  linear_interpolate_to_particle_z_1d p plo dxi (fun _ => data_arr) H
    (fun _ _ => true) 0 M 1

/-- `mac_interpolate_mapped_z` at `AMREX_SPACEDIM = 1` (`num_arrays = 1`). -/
def mac_interpolate_mapped_z_1d (p : Particle) (plo dxi : ℕ → ℚ)
    (data_arr : ℕ → Array4) (H : HeightArr) : Except String (List ℚ) :=
  linear_interpolate_to_particle_z_1d p plo dxi data_arr H mac_nodal 0 1 1

namespace Math

/-- `amrex::Math::powi<Power>(x)` for `Power >= 0`, following the compile-time
recursion of the source (cases 0, 1, 2, even via squaring, odd). -/
def powiAux (n : ℕ) (x : ℚ) : ℚ :=
  if n = 0 then 1
  else if n = 1 then x
  else if n = 2 then x * x
  else if n % 2 = 0 then powiAux 2 (powiAux (n / 2) x)
  else x * powiAux (n - 1) x
termination_by n
decreasing_by all_goals omega

/-- `amrex::Math::powi<Power>(x)` on a non-integral type: for negative `Power`
it returns `1 / powi<-Power>(x)`. -/
def powi (P : ℤ) (x : ℚ) : ℚ :=
  if P < 0 then 1 / powiAux (-P).toNat x else powiAux P.toNat x

end Math

end amrex

namespace amrex

/-- The all-zeros real vector, used as `plo` in concrete instances. -/
def vZero : ℕ → ℚ := fun _ => 0

/-- The all-ones real vector, used as `dxi` in concrete instances. -/
def vOne : ℕ → ℚ := fun _ => 1

/-- A particle at the origin with zero auxiliary data. -/
def pZero : Particle := ⟨fun _ => 0, fun _ => 0⟩

/-- The identically zero field array. -/
def fZero : Array4 := fun _ _ _ _ => 0

/-- The identically one field array; interpolating it returns exactly the sum
of the corner weights of the kernel. -/
def oneField : Array4 := fun _ _ _ _ => 1

/-- The 2D field of the concrete scenario: 10 at cell (0,0), 20 at (1,0),
30 at (0,1), 40 at (1,1), zero elsewhere. -/
def dataC5 : Array4 := fun i j _ _ =>
  if i = 0 ∧ j = 0 then 10 else if i = 1 ∧ j = 0 then 20
  else if i = 0 ∧ j = 1 then 30 else if i = 1 ∧ j = 1 then 40 else 0

/-- A particle at physical position (1.0, 1.0). -/
def pC5 : Particle := ⟨fun _ => 1, fun _ => 0⟩

/-- The all-cell-centered staggering vector. -/
def stagW : ℕ → Bool := fun _ => false

/-- A particle at position 1/2 on every axis with zero seed index. -/
def pW : Particle := ⟨fun _ => 1 / 2, fun _ => 0⟩

/-- A height field increasing linearly in the third (3D vertical) index. -/
def H_lin : HeightArr := fun _ _ k => (k : ℚ)

/-- A height field increasing linearly in the second (2D vertical) index. -/
def H_lin2 : HeightArr := fun _ j _ => (j : ℚ)

theorem wt_zero (t : ℚ) : wt t 0 = 1 - t := rfl

theorem wt_one (t : ℚ) : wt t 1 = t := rfl

/-- Length of a flat buffer made of `n` equal-length blocks. -/
theorem blocks_length (g : ℕ → ℕ → ℚ) (s L n : ℕ) :
    ((List.range n).flatMap fun d => (List.range' s L).map (g d)).length = n * L := by
  rw [List.length_flatMap]
  have h : (List.map (List.length ∘ fun d => (List.range' s L).map (g d)) (List.range n))
      = List.replicate n L := by
    simp [Function.comp_def, List.length_map, List.length_range', List.map_const',
      List.length_range]
  rw [h, List.sum_replicate, smul_eq_mul]

/-- Indexing into a flat buffer made of equal-length blocks: entry `d * L + m`
is entry `m` of block `d`. -/
theorem blocks_getElem (g : ℕ → ℕ → ℚ) (s L : ℕ) :
    ∀ (n a d m : ℕ), d < n → m < L →
      ((List.range' a n).flatMap fun d0 => (List.range' s L).map (g d0))[d * L + m]?
        = some (g (a + d) (s + m)) := by
  intro n
  induction n with
  | zero => intro a d m hd _; exact absurd hd (Nat.not_lt_zero d)
  | succ n ih =>
    intro a d m hd hm
    rw [List.range'_succ, List.flatMap_cons]
    cases d with
    | zero =>
      rw [List.getElem?_append_left (by simpa [List.length_map, List.length_range'] using hm)]
      rw [List.getElem?_map, List.getElem?_range' s 1 (by simpa using hm)]
      simp
    | succ d =>
      rw [List.getElem?_append_right (by
        simp only [List.length_map, List.length_range']
        calc L ≤ d * L + m + L := by omega
        _ = (d + 1) * L + m := by ring)]
      have hidx : (d + 1) * L + m - (List.map (g a) (List.range' s L)).length = d * L + m := by
        simp only [List.length_map, List.length_range']
        ring_nf
        omega
      rw [hidx]
      rw [ih (a + 1) d m (by omega) hm]
      congr 2
      omega

/-- The recursive-squaring computation of `powiAux` equals the monoid power. -/
theorem powiAux_eq (n : ℕ) : ∀ x : ℚ, Math.powiAux n x = x ^ n := by
  induction n using Nat.strong_induction_on with
  | _ n ih =>
    intro x
    rw [Math.powiAux]
    split_ifs with h0 h1 h2 hev
    · simp [h0]
    · simp [h1]
    · subst h2; rw [sq x]
    · rw [ih (n / 2) (by omega) x, ih 2 (by omega) (x ^ (n / 2))]
      rw [← pow_mul]
      congr 1
      omega
    · rw [ih (n - 1) (by omega) x]
      rw [← pow_succ']
      congr 1
      omega

/-- The linear-interpolation identity satisfied by an unguarded ratio
`(z - A) / (B - A)` as soon as the denominator is nonzero. -/
theorem lin_of_hint (z A B : ℚ) (h : B ≠ A) :
    (1 - (z - A) / (B - A)) * A + ((z - A) / (B - A)) * B = z := by
  have hBA : B - A ≠ 0 := sub_ne_zero.mpr h
  field_simp
  ring

/-- With coincident endpoints no vertical weight can reproduce a particle
elevation away from them: the interpolation problem is ill-posed there. -/
theorem degenerate_hint (t z A : ℚ) (hz : z ≠ A) : (1 - t) * A + t * A ≠ z := by
  intro hEq
  apply hz
  linarith

/-- In the concrete 3D witness configuration the two reconstructed heights
bounding the particle differ. -/
theorem hthi_ne_htlo_3dW :
    hthi_3d pW vZero vOne stagW H_lin 0 0 ≠ htlo_3d pW vZero vOne stagW H_lin 0 0 := by
  norm_num [hthi_3d, htlo_3d, ht_avg_3d, stag_off, iidx, ifrac, lcoord, ifloor, k0_3d,
    height_at_pxy_3d, hlo_avg_3d, wt, H_lin, pW, vZero, vOne, stagW]

/-- In the concrete 2D witness configuration the two reconstructed heights
bounding the particle differ. -/
theorem hthi_ne_htlo_2dW :
    hthi_2d pW vZero vOne stagW H_lin2 0 ≠ htlo_2d pW vZero vOne stagW H_lin2 0 := by
  norm_num [hthi_2d, htlo_2d, havg_2d, stag_off, iidx, ifrac, lcoord, ifloor, j0_2d,
    height_at_px_2d, wt, H_lin2, pW, vZero, vOne, stagW]

/-- Claim C1 as stated is false: with `start_comp = 1`, `ncomp = 2`,
`num_arrays = 1`, the component loop `for (comp = start_comp; comp < ncomp; ++comp)`
performs one iteration, so the kernel writes 1 entry, not
`num_arrays * ncomp = 2`. -/
theorem claim_C1_counterexample :
    (linear_interpolate_to_particle_3d pZero vZero vOne (fun _ => fZero)
      (fun _ _ => false) 1 2 1).length ≠ 1 * 2 := by decide

/-- Claim C1 (amended): the kernel interpolates exactly the components in
`[start_comp, ncomp)` of each array and writes all
`num_arrays * (ncomp - start_comp)` entries of the output buffer, entry
`d * (ncomp - start_comp) + (c - start_comp)` holding the interpolated
component `c` of array `d`; no entry is left unwritten (shown for the 3D and
2D expansions of the kernel). -/
theorem claim_C1_amended (p : Particle) (plo dxi : ℕ → ℚ) (data_arr : ℕ → Array4)
    (is_nodal : ℕ → ℕ → Bool) (start_comp ncomp num_arrays : ℕ) :
    (linear_interpolate_to_particle_3d p plo dxi data_arr is_nodal start_comp ncomp
        num_arrays).length = num_arrays * (ncomp - start_comp) ∧
    (∀ d c, d < num_arrays → start_comp ≤ c → c < ncomp →
      (linear_interpolate_to_particle_3d p plo dxi data_arr is_nodal start_comp ncomp
          num_arrays)[d * (ncomp - start_comp) + (c - start_comp)]?
        = some (interp_one_3d p plo dxi (is_nodal d) (data_arr d) c)) ∧
    (linear_interpolate_to_particle_2d p plo dxi data_arr is_nodal start_comp ncomp
        num_arrays).length = num_arrays * (ncomp - start_comp) ∧
    (∀ d c, d < num_arrays → start_comp ≤ c → c < ncomp →
      (linear_interpolate_to_particle_2d p plo dxi data_arr is_nodal start_comp ncomp
          num_arrays)[d * (ncomp - start_comp) + (c - start_comp)]?
        = some (interp_one_2d p plo dxi (is_nodal d) (data_arr d) c)) := by
  refine ⟨?_, ?_, ?_, ?_⟩
  · simpa [linear_interpolate_to_particle_3d, comp_range] using
      blocks_length (fun d c => interp_one_3d p plo dxi (is_nodal d) (data_arr d) c)
        start_comp (ncomp - start_comp) num_arrays
  · intro d c hd hc1 hc2
    have hm : c - start_comp < ncomp - start_comp := by omega
    have h := blocks_getElem (fun d c => interp_one_3d p plo dxi (is_nodal d) (data_arr d) c)
      start_comp (ncomp - start_comp) num_arrays 0 d (c - start_comp) hd hm
    have hc : start_comp + (c - start_comp) = c := by omega
    simp only [Nat.zero_add, hc] at h
    simp only [linear_interpolate_to_particle_3d, comp_range, List.range_eq_range']
    exact h
  · simpa [linear_interpolate_to_particle_2d, comp_range] using
      blocks_length (fun d c => interp_one_2d p plo dxi (is_nodal d) (data_arr d) c)
        start_comp (ncomp - start_comp) num_arrays
  · intro d c hd hc1 hc2
    have hm : c - start_comp < ncomp - start_comp := by omega
    have h := blocks_getElem (fun d c => interp_one_2d p plo dxi (is_nodal d) (data_arr d) c)
      start_comp (ncomp - start_comp) num_arrays 0 d (c - start_comp) hd hm
    have hc : start_comp + (c - start_comp) = c := by omega
    simp only [Nat.zero_add, hc] at h
    simp only [linear_interpolate_to_particle_2d, comp_range, List.range_eq_range']
    exact h

/-- Witness for the amended claim C1 at `start_comp = 1`, `ncomp = 3`,
`num_arrays = 2`, entry `d = 1`, `c = 2`. -/
theorem claim_C1_amended_witness :
    (linear_interpolate_to_particle_3d pZero vZero vOne (fun _ => fZero)
        (fun _ _ => false) 1 3 2).length = 2 * (3 - 1) ∧
    (linear_interpolate_to_particle_3d pZero vZero vOne (fun _ => fZero)
        (fun _ _ => false) 1 3 2)[1 * (3 - 1) + (2 - 1)]?
      = some (interp_one_3d pZero vZero vOne (fun _ => false) fZero 2) ∧
    (linear_interpolate_to_particle_2d pZero vZero vOne (fun _ => fZero)
        (fun _ _ => false) 1 3 2)[1 * (3 - 1) + (2 - 1)]?
      = some (interp_one_2d pZero vZero vOne (fun _ => false) fZero 2) :=
  ⟨(claim_C1_amended pZero vZero vOne (fun _ => fZero) (fun _ _ => false) 1 3 2).1,
   (claim_C1_amended pZero vZero vOne (fun _ => fZero) (fun _ _ => false) 1 3 2).2.1
     1 2 (by decide) (by decide) (by decide),
   (claim_C1_amended pZero vZero vOne (fun _ => fZero) (fun _ _ => false) 1 3 2).2.2.2
     1 2 (by decide) (by decide) (by decide)⟩

/-- Claim C2: per axis the kernel computes `l = (pos - plo) * dxi` minus 1/2
when cell-centered (minus 0 when nodal), takes `i0 = floor(l)` rounding toward
negative infinity (characterized by `i0 ≤ l < i0 + 1`, for negative `l` too),
and uses the remainder `xint = l - i0`, which lies in `[0, 1)`, as the
interpolation weight along that axis. -/
theorem claim_C2 (p : Particle) (plo dxi : ℕ → ℚ) (nodal : ℕ → Bool) (a : ℕ) :
    lcoord (p.pos a) (plo a) (dxi a) (nodal a)
        = (p.pos a - plo a) * dxi a - (if nodal a then 0 else (1 : ℚ) / 2) ∧
    ((iidx p plo dxi nodal a : ℚ) ≤ lcoord (p.pos a) (plo a) (dxi a) (nodal a)
      ∧ lcoord (p.pos a) (plo a) (dxi a) (nodal a) < (iidx p plo dxi nodal a : ℚ) + 1) ∧
    (ifrac p plo dxi nodal a
        = lcoord (p.pos a) (plo a) (dxi a) (nodal a) - (iidx p plo dxi nodal a : ℚ)
      ∧ 0 ≤ ifrac p plo dxi nodal a ∧ ifrac p plo dxi nodal a < 1) := by
  refine ⟨?_, ⟨?_, ?_⟩, rfl, ?_, ?_⟩
  · rw [lcoord]; split_ifs <;> ring
  · exact Int.floor_le _
  · exact Int.lt_floor_add_one _
  · have := Int.floor_le (lcoord (p.pos a) (plo a) (dxi a) (nodal a))
    rw [ifrac]; simp only [iidx, ifloor]; linarith
  · have := Int.lt_floor_add_one (lcoord (p.pos a) (plo a) (dxi a) (nodal a))
    rw [ifrac]; simp only [iidx, ifloor]; linarith

/-- Claim C3: in 3D the seed vertical index is `p.idata(0)`, the terrain
height under the particle is reconstructed at that index
(`height_at_pxy_3d` reads the height field at level `p.idata 0`), and the
resolved lower vertical index `k0` equals the seed when the particle lies at
or above the reconstruction and seed - 1 otherwise; consequently `k0` is
always the seed or the seed minus one — no further iteration or fallback
search exists. The 2D case resolves `j0` from `idata(0)` analogously. -/
theorem claim_C3 (p : Particle) (plo dxi : ℕ → ℚ) (nodal : ℕ → Bool) (H : HeightArr) :
    (k0_3d p plo dxi nodal H
        = if p.pos 2 ≥ height_at_pxy_3d p plo dxi nodal H then p.idata 0
          else p.idata 0 - 1) ∧
    (k0_3d p plo dxi nodal H = p.idata 0 ∨ k0_3d p plo dxi nodal H = p.idata 0 - 1) ∧
    (j0_2d p plo dxi nodal H
        = if p.pos 1 ≥ height_at_px_2d p plo dxi nodal H then p.idata 0
          else p.idata 0 - 1) ∧
    (j0_2d p plo dxi nodal H = p.idata 0 ∨ j0_2d p plo dxi nodal H = p.idata 0 - 1) := by
  refine ⟨rfl, ?_, rfl, ?_⟩
  · rw [k0_3d]; split_ifs <;> simp
  · rw [j0_2d]; split_ifs <;> simp

/-- Claim C4: in a 1D build the terrain-fitted kernel and each of its mapped-z
wrappers report the fatal abort with its descriptive message and never return
an interpolated buffer. -/
theorem claim_C4 (p : Particle) (plo dxi : ℕ → ℚ) (data : Array4) (data_arr : ℕ → Array4)
    (H : HeightArr) (is_nodal : ℕ → ℕ → Bool) (s n a M : ℕ) :
    linear_interpolate_to_particle_z_1d p plo dxi data_arr H is_nodal s n a
        = .error abort_1d_msg ∧
    cic_interpolate_mapped_z_1d p plo dxi data H M = .error abort_1d_msg ∧
    cic_interpolate_cc_mapped_z_1d p plo dxi data H M = .error abort_1d_msg ∧
    cic_interpolate_nd_mapped_z_1d p plo dxi data H M = .error abort_1d_msg ∧
    mac_interpolate_mapped_z_1d p plo dxi data_arr H = .error abort_1d_msg ∧
    (∀ out : List ℚ,
      linear_interpolate_to_particle_z_1d p plo dxi data_arr H is_nodal s n a
        ≠ .ok out) := by
  refine ⟨rfl, rfl, rfl, rfl, rfl, fun out h => ?_⟩
  simp [linear_interpolate_to_particle_z_1d] at h

/-- Claim C5: for the 2D cell-centered field with values 10, 20, 30, 40 at
cells (0,0), (1,0), (0,1), (1,1), `plo = (0,0)`, `dxi = (1,1)`, the
cell-centered kernel at physical position (1.0, 1.0) returns exactly 25. -/
theorem claim_C5 : cic_interpolate_cc_2d pC5 vZero vOne dataC5 1 = [25] := by
  norm_num [cic_interpolate_cc_2d, linear_interpolate_to_particle_2d, comp_range,
    interp_one_2d, corner_sum_2d, iidx, ifrac, lcoord, ifloor, wt, dataC5, pC5, vZero, vOne]
  rfl

/-- Claim C6: the 2^D corner weights of the orthogonal kernel sum to exactly 1
for any staggering vector and particle position — interpolating the constant
field 1 (whose value factors out of every corner term) yields exactly the
weight sum, and it equals 1 in every dimension. -/
theorem claim_C6 (p : Particle) (plo dxi : ℕ → ℚ) (nodal : ℕ → Bool) (comp : ℕ) :
    interp_one_3d p plo dxi nodal oneField comp = 1 ∧
    interp_one_2d p plo dxi nodal oneField comp = 1 ∧
    interp_one_1d p plo dxi nodal oneField comp = 1 := by
  refine ⟨?_, ?_, ?_⟩ <;>
    simp only [interp_one_3d, interp_one_2d, interp_one_1d, corner_sum_3d, corner_sum_2d,
      corner_sum_1d, oneField, wt_zero, wt_one] <;> ring

/-- Claim C7: the orthogonal kernel is linear in the field data — applied to
the pointwise combination `a*A + b*B` it equals `a` times the kernel on `A`
plus `b` times the kernel on `B`, in every dimension, in exact arithmetic. -/
theorem claim_C7 (a b : ℚ) (A B : Array4) (p : Particle) (plo dxi : ℕ → ℚ)
    (nodal : ℕ → Bool) (comp : ℕ) :
    interp_one_3d p plo dxi nodal (fun i j k c => a * A i j k c + b * B i j k c) comp
        = a * interp_one_3d p plo dxi nodal A comp
          + b * interp_one_3d p plo dxi nodal B comp ∧
    interp_one_2d p plo dxi nodal (fun i j k c => a * A i j k c + b * B i j k c) comp
        = a * interp_one_2d p plo dxi nodal A comp
          + b * interp_one_2d p plo dxi nodal B comp ∧
    interp_one_1d p plo dxi nodal (fun i j k c => a * A i j k c + b * B i j k c) comp
        = a * interp_one_1d p plo dxi nodal A comp
          + b * interp_one_1d p plo dxi nodal B comp := by
  refine ⟨?_, ?_, ?_⟩ <;>
    simp only [interp_one_3d, interp_one_2d, interp_one_1d, corner_sum_3d, corner_sum_2d,
      corner_sum_1d] <;> ring

/-- Claim C8: the three convenience specializations equal the general kernel
with the fixed arguments stated by the spec — `cic_interpolate_cc` is the
kernel with one array, all-zero staggering, `start_comp = 0`, `ncomp = M`;
`cic_interpolate_nd` the same with all-one staggering; `mac_interpolate` the
kernel with `AMREX_SPACEDIM` arrays, array `d` nodal exactly in axis `d`, one
component each (its output unfolds to one interpolated value per axis-array);
shown for the 3D and 2D expansions. -/
theorem claim_C8 (p : Particle) (plo dxi : ℕ → ℚ) (data : Array4)
    (data_arr : ℕ → Array4) (M : ℕ) :
    cic_interpolate_cc_3d p plo dxi data M
        = linear_interpolate_to_particle_3d p plo dxi (fun _ => data)
            (fun _ _ => false) 0 M 1 ∧
    cic_interpolate_nd_3d p plo dxi data M
        = linear_interpolate_to_particle_3d p plo dxi (fun _ => data)
            (fun _ _ => true) 0 M 1 ∧
    mac_interpolate_3d p plo dxi data_arr
        = linear_interpolate_to_particle_3d p plo dxi data_arr mac_nodal 0 1 3 ∧
    mac_interpolate_3d p plo dxi data_arr
        = [interp_one_3d p plo dxi (mac_nodal 0) (data_arr 0) 0,
           interp_one_3d p plo dxi (mac_nodal 1) (data_arr 1) 0,
           interp_one_3d p plo dxi (mac_nodal 2) (data_arr 2) 0] ∧
    cic_interpolate_cc_2d p plo dxi data M
        = linear_interpolate_to_particle_2d p plo dxi (fun _ => data)
            (fun _ _ => false) 0 M 1 ∧
    cic_interpolate_nd_2d p plo dxi data M
        = linear_interpolate_to_particle_2d p plo dxi (fun _ => data)
            (fun _ _ => true) 0 M 1 ∧
    mac_interpolate_2d p plo dxi data_arr
        = linear_interpolate_to_particle_2d p plo dxi data_arr mac_nodal 0 1 2 ∧
    mac_interpolate_2d p plo dxi data_arr
        = [interp_one_2d p plo dxi (mac_nodal 0) (data_arr 0) 0,
           interp_one_2d p plo dxi (mac_nodal 1) (data_arr 1) 0] ∧
    (∀ d axis : ℕ, mac_nodal d axis = true ↔ axis = d) :=
  ⟨rfl, rfl, rfl, rfl, rfl, rfl, rfl, rfl, fun d axis => by simp [mac_nodal]⟩

/-- Claim C9: each per-horizontal-corner fractional vertical weight of the
terrain-fitted kernel equals
`(particle vertical position - lower reconstructed height) / (upper - lower)`
unconditionally (no guard on the denominator); whenever the two reconstructed
heights differ it satisfies the defining linear-interpolation identity, and
when they coincide (zero-thickness column) no weight can satisfy it, so the
computation is well defined only under that precondition. Shown for the 3D
corner `(ii, jj)` and the 2D corner `ii`. -/
theorem claim_C9 (p : Particle) (plo dxi : ℕ → ℚ) (nodal : ℕ → Bool) (H : HeightArr)
    (ii jj : ℤ) :
    (hint_3d p plo dxi nodal H ii jj
        = (p.pos 2 - htlo_3d p plo dxi nodal H ii jj)
          / (hthi_3d p plo dxi nodal H ii jj - htlo_3d p plo dxi nodal H ii jj)) ∧
    (hthi_3d p plo dxi nodal H ii jj ≠ htlo_3d p plo dxi nodal H ii jj →
      (1 - hint_3d p plo dxi nodal H ii jj) * htlo_3d p plo dxi nodal H ii jj
        + hint_3d p plo dxi nodal H ii jj * hthi_3d p plo dxi nodal H ii jj = p.pos 2) ∧
    (hthi_3d p plo dxi nodal H ii jj = htlo_3d p plo dxi nodal H ii jj →
      p.pos 2 ≠ htlo_3d p plo dxi nodal H ii jj →
      (1 - hint_3d p plo dxi nodal H ii jj) * htlo_3d p plo dxi nodal H ii jj
        + hint_3d p plo dxi nodal H ii jj * hthi_3d p plo dxi nodal H ii jj ≠ p.pos 2) ∧
    (hint_2d p plo dxi nodal H ii
        = (p.pos 1 - htlo_2d p plo dxi nodal H ii)
          / (hthi_2d p plo dxi nodal H ii - htlo_2d p plo dxi nodal H ii)) ∧
    (hthi_2d p plo dxi nodal H ii ≠ htlo_2d p plo dxi nodal H ii →
      (1 - hint_2d p plo dxi nodal H ii) * htlo_2d p plo dxi nodal H ii
        + hint_2d p plo dxi nodal H ii * hthi_2d p plo dxi nodal H ii = p.pos 1) ∧
    (hthi_2d p plo dxi nodal H ii = htlo_2d p plo dxi nodal H ii →
      p.pos 1 ≠ htlo_2d p plo dxi nodal H ii →
      (1 - hint_2d p plo dxi nodal H ii) * htlo_2d p plo dxi nodal H ii
        + hint_2d p plo dxi nodal H ii * hthi_2d p plo dxi nodal H ii ≠ p.pos 1) := by
  refine ⟨rfl, fun h => ?_, fun he hz => ?_, rfl, fun h => ?_, fun he hz => ?_⟩
  · rw [hint_3d]; exact lin_of_hint _ _ _ h
  · rw [hint_3d, he]; exact degenerate_hint _ _ _ hz
  · rw [hint_2d]; exact lin_of_hint _ _ _ h
  · rw [hint_2d, he]; exact degenerate_hint _ _ _ hz

/-- Witness for claim C9: a particle at elevation 1/2 over a linearly rising
height field has distinct bounding reconstructed heights, and the weight
computed by the kernel reproduces the particle elevation, in 3D and 2D. -/
theorem claim_C9_witness :
    (hthi_3d pW vZero vOne stagW H_lin 0 0 ≠ htlo_3d pW vZero vOne stagW H_lin 0 0) ∧
    ((1 - hint_3d pW vZero vOne stagW H_lin 0 0) * htlo_3d pW vZero vOne stagW H_lin 0 0
        + hint_3d pW vZero vOne stagW H_lin 0 0 * hthi_3d pW vZero vOne stagW H_lin 0 0
      = pW.pos 2) ∧
    (hthi_2d pW vZero vOne stagW H_lin2 0 ≠ htlo_2d pW vZero vOne stagW H_lin2 0) ∧
    ((1 - hint_2d pW vZero vOne stagW H_lin2 0) * htlo_2d pW vZero vOne stagW H_lin2 0
        + hint_2d pW vZero vOne stagW H_lin2 0 * hthi_2d pW vZero vOne stagW H_lin2 0
      = pW.pos 1) :=
  ⟨hthi_ne_htlo_3dW,
   (claim_C9 pW vZero vOne stagW H_lin 0 0).2.1 hthi_ne_htlo_3dW,
   hthi_ne_htlo_2dW,
   (claim_C9 pW vZero vOne stagW H_lin2 0 0).2.2.2.2.1 hthi_ne_htlo_2dW⟩

/-- Claim C10: for `Power >= 0`, `powi` equals the `Power`-fold product
(`x ^ Power`, with `powi 0 x = x ^ 0 = 1`); for `Power < 0` it equals
`1 / powi (-Power) x`; the recursive squaring computes exactly the
mathematical integer power. -/
theorem claim_C10 (x : ℚ) (P : ℤ) :
    (0 ≤ P → Math.powi P x = x ^ P.toNat) ∧
    (P < 0 → Math.powi P x = 1 / Math.powi (-P) x) ∧
    (∀ n : ℕ, Math.powi (n : ℤ) x = x ^ n) := by
  refine ⟨fun h => ?_, fun h => ?_, fun n => ?_⟩
  · rw [Math.powi, if_neg (not_lt.mpr h), powiAux_eq]
  · rw [Math.powi, if_pos h, Math.powi, if_neg (by omega : ¬(-P < 0))]
  · have hn : ¬((n : ℤ) < 0) := by omega
    rw [Math.powi, if_neg hn, powiAux_eq, Int.toNat_natCast]

/-- Witness for claim C10 at `Power = 5` and `Power = -2`. -/
theorem claim_C10_witness :
    Math.powi 5 (2 : ℚ) = (2 : ℚ) ^ (5 : ℤ).toNat ∧
    Math.powi (-2) (3 : ℚ) = 1 / Math.powi 2 3 :=
  ⟨(claim_C10 2 5).1 (by decide), (claim_C10 3 (-2)).2.1 (by decide)⟩

end amrex
